import Mathlib

/-!
Shallow embedding of the oracle-feeder vote pipeline (`vote.ts`):
price aggregation (`getPrices`), whitelist filtering (`filterPrices`,
`fillAbstainPrices`), vote-message building (`buildVoteMsgs`), the tick
(`processVote`), confirmation polling (`validateTx`) and the enclosing
loop's failure handler (`voteTick`).

JavaScript strings are modelled as Lean `String`; `toLowerCase`,
`toUpperCase` and `slice(1)` act on the character list.  Machine numbers
are `Nat`/`Int` (block heights and periods are non-negative; the
reveal-miss subtraction is done in `Int` as in JS).  Network effects are
modelled by explicit outcome values in an environment record, and the
flags in `TickResult` record which effects a tick performed.
-/

namespace OracleFeeder

/-- JS `toLowerCase` on a string (per character, ASCII as in `Char.toLower`). -/
def lowerStr (s : String) : String := ⟨s.data.map Char.toLower⟩

/-- JS `toUpperCase` on a string. -/
def upperStr (s : String) : String := ⟨s.data.map Char.toUpper⟩

/-- JS `slice(1)`: drop the first character. -/
def sliceOne (s : String) : String := ⟨s.data.drop 1⟩

/-- A price entry `{currency, price}` of the feed (`interface Price`). -/
structure Price where
  currency : String
  price : String
deriving DecidableEq, Repr

/-- The literal abstain price string used by the source. -/
def zeroPrice : String := "0.000000000000000000"

/-- The whitelist denom a price entry stands for: `u` + lowercased currency. -/
def entryDenom (p : Price) : String := "u" ++ lowerStr p.currency

/-- The body of the `prices.map` in `filterPrices`: drop non-whitelisted
currencies (`undefined`, removed by `.filter(Boolean)`), zero the price of
currencies outside `denoms`, keep the rest. -/
def mapStep (oracleWhitelist denoms : List String) (p : Price) : Option Price :=
  if ("u" ++ lowerStr p.currency) ∈ oracleWhitelist then
    if lowerStr p.currency ∈ denoms then some p
    else some ⟨p.currency, zeroPrice⟩
  else none

/-- Embedding of `fillAbstainPrices`: one abstain entry for each whitelist denom not
covered by `prices` (the `found` test is `denom === "u" + lowercase`). -/
def fillAbstainPrices (prices : List Price) (oracleWhitelist : List String) : List Price :=
  oracleWhitelist.filterMap fun denom =>
    if 0 < (prices.filter fun q => decide (denom = "u" ++ lowerStr q.currency)).length
    then none
    else some ⟨upperStr (sliceOne denom), zeroPrice⟩

/-- Embedding of `filterPrices`: map/filter the raw prices against the whitelist and the
requested denoms, then append the synthesized abstain entries. -/
def filterPrices (prices : List Price) (oracleWhitelist denoms : List String) : List Price :=
  let newPrices := prices.filterMap (mapStep oracleWhitelist denoms)
  newPrices ++ fillAbstainPrices newPrices oracleWhitelist

/-- A price-source response body.  `created_at = none`: not a string;
`some none`: a string whose `Date` parse is `NaN`; `some (some t)`: parses
to time `t` (ms).  `prices = none`: not an array. -/
structure RespData where
  created_at : Option (Option Int)
  prices : Option (List Price)
deriving DecidableEq

/-- Outcome of one `ax.get(source)` promise: rejected, or fulfilled at a
given (virtual) time with a response body. -/
inductive FetchOutcome where
  | rejected : FetchOutcome
  | fulfilled : Nat → RespData → FetchOutcome
deriving DecidableEq

/-- Structural validity test of the response filter: `created_at` is a
string and `prices` is a non-empty array. -/
def respValid (d : RespData) : Bool :=
  match d.created_at, d.prices with
  | some _, some (_ :: _) => true
  | _, _ => false

/-- Freshness test: `Date.now() - created_at > 60000` rejects; a `NaN`
parse makes the comparison false, so the response passes. -/
def respFresh (now : Int) (d : RespData) : Bool :=
  match d.created_at with
  | some (some t) => decide (now - t ≤ 60 * 1000)
  | _ => true

/-- Model of `Bluebird.some(promises, 1)`: the first promise to fulfill, i.e. the
fulfilled outcome of least completion time (earlier source on a tie);
`none` when every promise rejects (`AggregateError`). -/
def firstFulfilled : List FetchOutcome → Option (Nat × RespData)
  | [] => none
  | FetchOutcome.rejected :: rest => firstFulfilled rest
  | FetchOutcome.fulfilled t d :: rest =>
    match firstFulfilled rest with
    | none => some (t, d)
    | some (u, e) => if u < t then some (u, e) else some (t, d)

/-- Embedding of `getPrices`: race the sources, validate the single winning response,
return its prices, `[]` when the winner fails validation, and a rejection
(`Except.error`) when every fetch rejects. -/
def getPrices (fetches : List FetchOutcome) (now : Int) : Except Unit (List Price) :=
  match firstFulfilled fetches with
  | none => Except.error ()
  | some r =>
    if respValid r.2 && respFresh now r.2 then Except.ok (r.2.prices.getD [])
    else Except.ok []

/-- An aggregate exchange-rate vote message (coins, salt, voter, validator). -/
structure VoteMsg where
  coins : String
  salt : String
  voter : String
  validator : String
deriving DecidableEq, Repr

/-- A message of the submitted transaction: a reveal vote or a derived
prevote commitment (`vm.getPrevote()`), identified by its vote message. -/
inductive Msg where
  | vote : VoteMsg → Msg
  | prevote : VoteMsg → Msg
deriving DecidableEq, Repr

/-- Embedding of `buildVoteMsgs`: join all prices into one coins string and build one
salted vote message per validator address (`salts i` is the random 2-byte
salt drawn for the `i`-th validator). -/
def buildVoteMsgs (prices : List Price) (valAddrs : List String) (voterAddr : String)
    (salts : Nat → String) : List VoteMsg :=
  let coins := String.intercalate ("," ) (prices.map fun p => p.price ++ "u" ++ lowerStr p.currency)
  valAddrs.enum.map fun iv => ⟨coins, salts iv.1, voterAddr, iv.2⟩

/-- Outcome of one `client.tx.txInfo(txhash)` query: a transaction record
with result code and height, or a thrown transport/not-found error. -/
inductive TxLookup where
  | found : Nat → Nat → TxLookup
  | queryError : TxLookup
deriving DecidableEq

/-- One iteration's observations during confirmation polling: the chain
height read from `blockInfo`, and the tx lookup outcome (consulted only
when the height advanced). -/
structure Poll where
  blockHeight : Nat
  txResult : TxLookup
deriving DecidableEq

/-- The `while (!height && lastCheckHeight < maxBlockHeight)` loop of
`validateTx`, consuming one `Poll` per iteration; returns the final
`height` (`none` when the supplied polls run out with the loop still
live) and the number of tx-by-hash queries performed. -/
def validateTxGo (maxBlockHeight : Nat) :
    List Poll → Nat → Nat → Nat → Option Nat × Nat
  | [], lastCheckHeight, height, queries =>
    if height ≠ 0 ∨ maxBlockHeight ≤ lastCheckHeight then (some height, queries)
    else (none, queries)
  | p :: rest, lastCheckHeight, height, queries =>
    if height ≠ 0 ∨ maxBlockHeight ≤ lastCheckHeight then (some height, queries)
    else if p.blockHeight ≤ lastCheckHeight then
      validateTxGo maxBlockHeight rest lastCheckHeight height queries
    else
      validateTxGo maxBlockHeight rest p.blockHeight
        (match p.txResult with
         | TxLookup.found 0 h => h
         | _ => height)
        (queries + 1)

/-- Embedding of `validateTx`: poll from `lastCheckHeight = nextBlockHeight - 1` up to
`maxBlockHeight = nextBlockHeight + 2`, setting `height` from the first
code-0 tx lookup. -/
def validateTx (polls : List Poll) (nextBlockHeight : Nat) : Option Nat × Nat :=
  validateTxGo (nextBlockHeight + 2) polls (nextBlockHeight - 1) 0 0

/-- The module-level mutable vote state (`previousVotePeriod`,
`previousVoteMsgs`). -/
structure VoteState where
  previousVotePeriod : Nat
  previousVoteMsgs : List VoteMsg
deriving DecidableEq, Repr

/-- The errors a tick can throw: the reveal-miss reset, an
`AggregateError` from the price race, or a sign/broadcast failure. -/
inductive TickErr where
  | revealMiss : TickErr
  | fetchFailed : TickErr
  | broadcastFailed : TickErr
deriving DecidableEq, Repr

/-- The observable outcome of a non-throwing tick: the resulting state and
which effects were performed (price fetch, tx signing, broadcast), plus
the submitted message list and its fee gas. -/
structure TickResult where
  state : VoteState
  fetchedPrices : Bool
  signedTx : Bool
  broadcasted : Bool
  submittedMsgs : List Msg
  feeGas : Nat
deriving DecidableEq, Repr

/-- The environment a tick runs in: oracle parameters and chain height
from `loadOracleParams`, the price-fetch outcomes and clock, the salts
drawn by `buildVoteMsgs`, the sign/broadcast outcome, and the
confirmation-polling observations. -/
structure PVEnv where
  oracleVotePeriod : Nat
  oracleWhitelist : List String
  latestBlockHeight : Nat
  fetches : List FetchOutcome
  now : Int
  salts : Nat → String
  broadcastResult : Except Unit String
  polls : List Poll

/-- Embedding of `processVote`: one tick of the vote pipeline.  `none` only when the
confirmation-poll observations run out with the loop still live (the real
loop would still be waiting); otherwise `some (Except.error e)` when the
tick throws and `some (Except.ok r)` when it returns. -/
def processVote (env : PVEnv) (valAddrs : List String) (voterAddr : String)
    (denoms : List String) (st : VoteState) : Option (Except TickErr TickResult) :=
  let nextBlockHeight := env.latestBlockHeight + 1
  let currentVotePeriod := nextBlockHeight / env.oracleVotePeriod
  let indexInVotePeriod := nextBlockHeight % env.oracleVotePeriod
  if (st.previousVotePeriod ≠ 0 ∧ currentVotePeriod = st.previousVotePeriod) ∨
      env.oracleVotePeriod - indexInVotePeriod < 2 then
    some (Except.ok ⟨st, false, false, false, [], 0⟩)
  else if st.previousVotePeriod ≠ 0 ∧
      (currentVotePeriod : Int) - (st.previousVotePeriod : Int) ≠ 1 then
    some (Except.error TickErr.revealMiss)
  else
    match getPrices env.fetches env.now with
    | Except.error _ => some (Except.error TickErr.fetchFailed)
    | Except.ok rawPrices =>
      let prices := filterPrices rawPrices env.oracleWhitelist denoms
      let voteMsgs := buildVoteMsgs prices valAddrs voterAddr env.salts
      let msgs := st.previousVoteMsgs.map Msg.vote ++ voteMsgs.map Msg.prevote
      let feeGas := msgs.length * 100000
      match env.broadcastResult with
      | Except.error _ => some (Except.error TickErr.broadcastFailed)
      | Except.ok _txhash =>
        match (validateTx env.polls nextBlockHeight).1 with
        | none => none
        | some height =>
          if height = 0 then some (Except.ok ⟨st, true, true, true, msgs, feeGas⟩)
          else some (Except.ok
            ⟨⟨height / env.oracleVotePeriod, voteMsgs⟩, true, true, true, msgs, feeGas⟩)

/-- One iteration of the `while (true)` loop in `vote`: run `processVote`
under its failure handler, which resets `previousVotePeriod` to 0 and
`previousVoteMsgs` to `[]` on any thrown error. -/
def voteTick (env : PVEnv) (valAddrs : List String) (voterAddr : String)
    (denoms : List String) (st : VoteState) : Option VoteState :=
  match processVote env valAddrs voterAddr denoms st with
  | none => none
  | some (Except.error _) => some ⟨0, []⟩
  | some (Except.ok r) => some r.state

/-! ## Price-filter lemmas (C1) -/

theorem u_append_injective : Function.Injective (fun s : String => "u" ++ s) := by
  intro x y h
  have hd : ("u" ++ x).data = ("u" ++ y).data := congrArg String.data h
  simp only [String.data_append] at hd
  exact String.ext (by simpa using hd)

theorem newPrices_map_entryDenom (W D : List String) (prices : List Price) :
    (prices.filterMap (mapStep W D)).map entryDenom
      = (prices.map entryDenom).filter fun d => decide (d ∈ W) := by
  induction prices with
  | nil => rfl
  | cons p ps ih =>
    by_cases hw : ("u" ++ lowerStr p.currency) ∈ W
    · by_cases hd : lowerStr p.currency ∈ D
      · simp [mapStep, hw, hd, entryDenom, ih]
      · simp [mapStep, hw, hd, entryDenom, ih]
    · simp [mapStep, hw, entryDenom, ih]

theorem found_iff (d : String) (ps : List Price) :
    0 < (ps.filter fun q => decide (d = "u" ++ lowerStr q.currency)).length ↔
      d ∈ ps.map entryDenom := by
  induction ps with
  | nil => simp
  | cons q qs ih =>
    by_cases h : d = "u" ++ lowerStr q.currency <;>
      simp [List.filter_cons, h, entryDenom, ih]

theorem fillAbstainPrices_eq (ps : List Price) (W : List String) :
    fillAbstainPrices ps W
      = (W.filter fun d => !decide (d ∈ ps.map entryDenom)).map
          fun d => ⟨upperStr (sliceOne d), zeroPrice⟩ := by
  induction W with
  | nil => rfl
  | cons d W ih =>
    simp only [fillAbstainPrices] at ih ⊢
    by_cases h : d ∈ ps.map entryDenom
    · have hpos := (found_iff d ps).mpr h
      rw [List.filterMap_cons, if_pos hpos, List.filter_cons_of_neg (by simp [h]), ih]
    · have hpos : ¬ 0 < (ps.filter fun q => decide (d = "u" ++ lowerStr q.currency)).length :=
        fun hc => h ((found_iff d ps).mp hc)
      rw [List.filterMap_cons, if_neg hpos, List.filter_cons_of_pos (by simp [h]),
        List.map_cons, ih]

theorem abstain_perm_whitelist {A W : List String} (hA : A.Nodup) (hW : W.Nodup)
    (hsub : ∀ x ∈ A, x ∈ W) :
    List.Perm (A ++ W.filter fun d => !decide (d ∈ A)) W := by
  have hperm1 : List.Perm (W.filter fun d => decide (d ∈ A)) A := by
    rw [List.perm_ext_iff_of_nodup (hW.filter _) hA]
    intro x
    simp only [List.mem_filter, decide_eq_true_eq]
    exact ⟨fun hx => hx.2, fun hx => ⟨hsub x hx, hx⟩⟩
  exact (hperm1.symm.append_right _).trans (List.filter_append_perm _ W)

theorem filterPrices_map_perm (prices : List Price) (W D : List String)
    (hW : W.Nodup)
    (hWform : ∀ d ∈ W, "u" ++ lowerStr (upperStr (sliceOne d)) = d)
    (hP : (prices.map fun p => lowerStr p.currency).Nodup) :
    List.Perm ((filterPrices prices W D).map entryDenom) W := by
  have hA : (prices.filterMap (mapStep W D)).map entryDenom
      = (prices.map entryDenom).filter fun d => decide (d ∈ W) :=
    newPrices_map_entryDenom W D prices
  have hEntry : prices.map entryDenom
      = (prices.map fun p => lowerStr p.currency).map fun s => "u" ++ s := by
    simp [entryDenom, Function.comp]
  have hNodupE : (prices.map entryDenom).Nodup := by
    rw [hEntry]; exact hP.map u_append_injective
  have hNodupA : ((prices.map entryDenom).filter fun d => decide (d ∈ W)).Nodup :=
    hNodupE.filter _
  have hAsub : ∀ x ∈ (prices.map entryDenom).filter fun d => decide (d ∈ W), x ∈ W := by
    intro x hx
    exact of_decide_eq_true (List.mem_filter.mp hx).2
  have hmap : (filterPrices prices W D).map entryDenom
      = ((prices.map entryDenom).filter fun d => decide (d ∈ W))
        ++ (W.filter fun d =>
            !decide (d ∈ (prices.map entryDenom).filter fun x => decide (x ∈ W))) := by
    show ((prices.filterMap (mapStep W D))
        ++ fillAbstainPrices (prices.filterMap (mapStep W D)) W).map entryDenom = _
    rw [List.map_append, fillAbstainPrices_eq, hA]
    congr 1
    rw [List.map_map]
    refine (List.map_congr_left ?_).trans (List.map_id _)
    intro d hd
    have hdW : d ∈ W := (List.mem_filter.mp hd).1
    simpa [entryDenom, Function.comp] using hWform d hdW
  rw [hmap]
  exact abstain_perm_whitelist hNodupA hW hAsub

/-- C1 (as stated) is false: with a raw price list holding two entries for
the same currency, `filterPrices` returns 2 entries against a 1-denom
whitelist. -/
theorem c1_counterexample :
    (filterPrices [⟨"USD", "1"⟩, ⟨"USD", "2"⟩] ["uusd"] ["usd"]).length ≠
      (["uusd"] : List String).length ∧
    filterPrices [⟨"USD", "1"⟩, ⟨"USD", "2"⟩] ["uusd"] ["usd"]
      = [⟨"USD", "1"⟩, ⟨"USD", "2"⟩] := by
  exact ⟨by decide, by decide⟩

/-- C1 (amended): when the whitelist denoms are pairwise distinct and of
the canonical form `u` + case-normalized remainder, and the raw prices
have pairwise-distinct lowercased currencies, `filterPrices` returns
exactly `|W|` entries, exactly one per denom of `W` (counted by the denom
`u` + lowercased currency an entry stands for). -/
theorem c1_filterPrices_entries (prices : List Price) (W D : List String)
    (hW : W.Nodup)
    (hWform : ∀ d ∈ W, "u" ++ lowerStr (upperStr (sliceOne d)) = d)
    (hP : (prices.map fun p => lowerStr p.currency).Nodup) :
    (filterPrices prices W D).length = W.length ∧
    ∀ d ∈ W, ((filterPrices prices W D).map entryDenom).count d = 1 := by
  have hperm := filterPrices_map_perm prices W D hW hWform hP
  refine ⟨?_, ?_⟩
  · have := hperm.length_eq
    simpa using this
  · intro d hd
    rw [hperm.count_eq]
    exact List.count_eq_one_of_mem hW hd

theorem c1_witness :
    (filterPrices [⟨"USD", "1.0"⟩] ["uusd", "ukrw"] ["usd"]).length
      = (["uusd", "ukrw"] : List String).length :=
  (c1_filterPrices_entries [⟨"USD", "1.0"⟩] ["uusd", "ukrw"] ["usd"]
    (by decide) (by decide) (by decide)).1

/-! ## Price-aggregation lemmas (C2, C3) -/

theorem firstFulfilled_cons_rejected (rest : List FetchOutcome) :
    firstFulfilled (FetchOutcome.rejected :: rest) = firstFulfilled rest := by
  simp only [firstFulfilled]

theorem firstFulfilled_cons_none (t : Nat) (d : RespData) (rest : List FetchOutcome)
    (hre : firstFulfilled rest = none) :
    firstFulfilled (FetchOutcome.fulfilled t d :: rest) = some (t, d) := by
  simp only [firstFulfilled]
  rw [hre]

theorem firstFulfilled_cons_some (t : Nat) (d : RespData) (rest : List FetchOutcome)
    (u : Nat) (e : RespData) (hre : firstFulfilled rest = some (u, e)) :
    firstFulfilled (FetchOutcome.fulfilled t d :: rest)
      = if u < t then some (u, e) else some (t, d) := by
  simp only [firstFulfilled]
  rw [hre]

theorem firstFulfilled_none (l : List FetchOutcome) (h : firstFulfilled l = none) :
    ∀ u e, FetchOutcome.fulfilled u e ∉ l := by
  induction l with
  | nil => simp
  | cons f rest ih =>
    intro u e hmem
    cases f with
    | rejected =>
      rw [firstFulfilled_cons_rejected] at h
      rcases List.mem_cons.mp hmem with heq | hmem2
      · cases heq
      · exact ih h u e hmem2
    | fulfilled t0 d0 =>
      rcases hre : firstFulfilled rest with - | p
      · rw [firstFulfilled_cons_none t0 d0 rest hre] at h
        cases h
      · obtain ⟨u1, e1⟩ := p
        rw [firstFulfilled_cons_some t0 d0 rest u1 e1 hre] at h
        by_cases hlt : u1 < t0
        · rw [if_pos hlt] at h
          cases h
        · rw [if_neg hlt] at h
          cases h

theorem firstFulfilled_min (fetches : List FetchOutcome) :
    ∀ t d, firstFulfilled fetches = some (t, d) →
      ∀ u e, FetchOutcome.fulfilled u e ∈ fetches → t ≤ u := by
  induction fetches with
  | nil => intro t d h; cases h
  | cons f rest ih =>
    intro t d h u e hmem
    cases f with
    | rejected =>
      rw [firstFulfilled_cons_rejected] at h
      rcases List.mem_cons.mp hmem with heq | hmem2
      · cases heq
      · exact ih t d h u e hmem2
    | fulfilled t0 d0 =>
      rcases List.mem_cons.mp hmem with heq | hmem2
      · have hu : u = t0 := by injection heq
        rcases hre : firstFulfilled rest with - | p
        · rw [firstFulfilled_cons_none t0 d0 rest hre] at h
          have ht : t = t0 := by
            injection h with hp
            injection hp with hp1 hp2
            omega
          omega
        · obtain ⟨u1, e1⟩ := p
          rw [firstFulfilled_cons_some t0 d0 rest u1 e1 hre] at h
          by_cases hlt : u1 < t0
          · rw [if_pos hlt] at h
            have ht : t = u1 := by
              injection h with hp
              injection hp with hp1 hp2
              omega
            omega
          · rw [if_neg hlt] at h
            have ht : t = t0 := by
              injection h with hp
              injection hp with hp1 hp2
              omega
            omega
      · rcases hre : firstFulfilled rest with - | p
        · exact absurd hmem2 (firstFulfilled_none rest hre u e)
        · obtain ⟨u1, e1⟩ := p
          rw [firstFulfilled_cons_some t0 d0 rest u1 e1 hre] at h
          have hmin := ih u1 e1 hre u e hmem2
          by_cases hlt : u1 < t0
          · rw [if_pos hlt] at h
            have ht : t = u1 := by
              injection h with hp
              injection hp with hp1 hp2
              omega
            omega
          · rw [if_neg hlt] at h
            have ht : t = t0 := by
              injection h with hp
              injection hp with hp1 hp2
              omega
            omega

theorem filterPrices_nil (W D : List String) :
    filterPrices [] W D = W.map fun d => ⟨upperStr (sliceOne d), zeroPrice⟩ := by
  show fillAbstainPrices [] W = _
  rw [fillAbstainPrices_eq]
  simp

/-- C2 (as stated) is false: with one source fulfilling first (50ms) with
a stale timestamp and another fulfilling later (100ms) with a fresh one,
`getPrices` returns the empty list, not the fresh response's prices:
`Bluebird.some(_, 1)` resolves on the first fulfilled promise and the
validity/freshness filter is applied only to that single winner. -/
theorem c2_counterexample :
    getPrices
        [FetchOutcome.fulfilled 50 ⟨some (some 1000), some [⟨"KRW", "1200.0"⟩]⟩,
         FetchOutcome.fulfilled 100 ⟨some (some 120000), some [⟨"USD", "1.0"⟩]⟩] 121000
      = Except.ok [] ∧
    (Except.ok [] : Except Unit (List Price)) ≠ Except.ok [⟨"USD", "1.0"⟩] := by
  refine ⟨rfl, fun h => ?_⟩
  simp at h

/-- C2 (amended): `getPrices` resolves on the first FULFILLED response
(the fulfilled fetch of least completion time, regardless of validity);
that winner's prices are returned when it is structurally valid and
fresh, and the empty list otherwise. -/
theorem c2_getPrices_first_fulfilled (fetches : List FetchOutcome) (now : Int)
    (t : Nat) (d : RespData)
    (h : firstFulfilled fetches = some (t, d)) :
    getPrices fetches now
      = (if respValid d && respFresh now d then Except.ok (d.prices.getD [])
         else Except.ok []) ∧
    ∀ u e, FetchOutcome.fulfilled u e ∈ fetches → t ≤ u := by
  refine ⟨?_, firstFulfilled_min fetches t d h⟩
  unfold getPrices
  rw [h]

theorem c2_witness :
    getPrices [FetchOutcome.rejected,
        FetchOutcome.fulfilled 100 ⟨some (some 120000), some [⟨"USD", "1.0"⟩]⟩] 121000
      = (if respValid ⟨some (some 120000), some [⟨"USD", "1.0"⟩]⟩ &&
            respFresh 121000 ⟨some (some 120000), some [⟨"USD", "1.0"⟩]⟩
         then Except.ok ((⟨some (some 120000), some [⟨"USD", "1.0"⟩]⟩ : RespData).prices.getD [])
         else Except.ok []) :=
  (c2_getPrices_first_fulfilled
    [FetchOutcome.rejected,
      FetchOutcome.fulfilled 100 ⟨some (some 120000), some [⟨"USD", "1.0"⟩]⟩]
    121000 100 ⟨some (some 120000), some [⟨"USD", "1.0"⟩]⟩ rfl).1

/-- C3 (as stated) is false: when EVERY fetch rejects, `getPrices` does
not return the empty list — `Bluebird.some` rejects with an
`AggregateError`, so the tick throws (here `TickErr.fetchFailed`) and the
loop's failure handler resets the vote state instead of continuing with
abstains. -/
theorem c3_counterexample :
    getPrices [FetchOutcome.rejected, FetchOutcome.rejected] 0 = Except.error () ∧
    processVote
        ⟨5, ["uusd"], 4, [FetchOutcome.rejected, FetchOutcome.rejected], 0,
          fun _ => "6162", Except.ok ("TXHASH"), []⟩
        ["val1"] "voter" ["usd"] ⟨0, []⟩
      = some (Except.error TickErr.fetchFailed) :=
  ⟨rfl, rfl⟩

/-- C3 (amended): when at least one fetch fulfills but the winning (first
fulfilled) response is invalid or stale, `getPrices` returns the empty
list and the tick continues; `filterPrices` then synthesizes an abstain
entry for every whitelisted denom.  (Only when every fetch rejects does
the aggregation raise.) -/
theorem c3_invalid_winner_all_abstain (fetches : List FetchOutcome) (now : Int)
    (W D : List String) (t : Nat) (d : RespData)
    (h : firstFulfilled fetches = some (t, d))
    (hbad : (respValid d && respFresh now d) = false) :
    getPrices fetches now = Except.ok [] ∧
    filterPrices [] W D = W.map fun dn => ⟨upperStr (sliceOne dn), zeroPrice⟩ := by
  refine ⟨?_, filterPrices_nil W D⟩
  unfold getPrices
  rw [h]
  show (if (respValid d && respFresh now d) = true then Except.ok (d.prices.getD [])
      else Except.ok []) = Except.ok []
  rw [hbad]
  simp

theorem c3_witness :
    getPrices [FetchOutcome.fulfilled 50 ⟨some (some 1000), some [⟨"KRW", "1200.0"⟩]⟩] 121000
      = Except.ok [] ∧
    filterPrices [] ["uusd"] ["usd"]
      = (["uusd"].map fun dn => (⟨upperStr (sliceOne dn), zeroPrice⟩ : Price)) :=
  c3_invalid_winner_all_abstain
    [FetchOutcome.fulfilled 50 ⟨some (some 1000), some [⟨"KRW", "1200.0"⟩]⟩]
    121000 ["uusd"] ["usd"] 50 ⟨some (some 1000), some [⟨"KRW", "1200.0"⟩]⟩ rfl rfl

/-! ## Tick lemmas (C4, C5, C6, C7, C8, C10) -/

theorem processVote_run (env : PVEnv) (valAddrs : List String) (voterAddr : String)
    (denoms : List String) (st : VoteState) (raw : List Price) (tx : String) (height : Nat)
    (hskip : ¬((st.previousVotePeriod ≠ 0 ∧
        (env.latestBlockHeight + 1) / env.oracleVotePeriod = st.previousVotePeriod) ∨
        env.oracleVotePeriod - (env.latestBlockHeight + 1) % env.oracleVotePeriod < 2))
    (hmiss : ¬(st.previousVotePeriod ≠ 0 ∧
        (((env.latestBlockHeight + 1) / env.oracleVotePeriod : Nat) : Int)
          - (st.previousVotePeriod : Int) ≠ 1))
    (hfetch : getPrices env.fetches env.now = Except.ok raw)
    (hbc : env.broadcastResult = Except.ok tx)
    (hval : (validateTx env.polls (env.latestBlockHeight + 1)).1 = some height) :
    processVote env valAddrs voterAddr denoms st = some (Except.ok
      { state := if height = 0 then st
          else ⟨height / env.oracleVotePeriod,
            buildVoteMsgs (filterPrices raw env.oracleWhitelist denoms)
              valAddrs voterAddr env.salts⟩
        fetchedPrices := true
        signedTx := true
        broadcasted := true
        submittedMsgs := st.previousVoteMsgs.map Msg.vote
          ++ (buildVoteMsgs (filterPrices raw env.oracleWhitelist denoms)
              valAddrs voterAddr env.salts).map Msg.prevote
        feeGas := (st.previousVoteMsgs.map Msg.vote
          ++ (buildVoteMsgs (filterPrices raw env.oracleWhitelist denoms)
              valAddrs voterAddr env.salts).map Msg.prevote).length * 100000 }) := by
  simp only [processVote]
  rw [if_neg hskip, if_neg hmiss, hfetch, hbc, hval]
  by_cases h0 : height = 0
  · simp [h0]
  · simp [h0]

/-- C4: with a non-zero previous vote period, the skip conditions false,
and the current period not one past the previous one, `processVote`
throws the reveal-miss error, and the loop's failure handler resets the
state to `previousVotePeriod = 0`, `previousVoteMsgs = []`. -/
theorem c4_reveal_miss_resets (env : PVEnv) (valAddrs : List String) (voterAddr : String)
    (denoms : List String) (st : VoteState)
    (hP : st.previousVotePeriod ≠ 0)
    (hnear : ¬(env.oracleVotePeriod - (env.latestBlockHeight + 1) % env.oracleVotePeriod < 2))
    (hne : (env.latestBlockHeight + 1) / env.oracleVotePeriod ≠ st.previousVotePeriod)
    (hgap : (((env.latestBlockHeight + 1) / env.oracleVotePeriod : Nat) : Int)
        - (st.previousVotePeriod : Int) ≠ 1) :
    processVote env valAddrs voterAddr denoms st = some (Except.error TickErr.revealMiss) ∧
    voteTick env valAddrs voterAddr denoms st = some ⟨0, []⟩ := by
  have hskip : ¬((st.previousVotePeriod ≠ 0 ∧
      (env.latestBlockHeight + 1) / env.oracleVotePeriod = st.previousVotePeriod) ∨
      env.oracleVotePeriod - (env.latestBlockHeight + 1) % env.oracleVotePeriod < 2) := by
    rintro (⟨-, hc⟩ | hc)
    · exact hne hc
    · exact hnear hc
  have h1 : processVote env valAddrs voterAddr denoms st
      = some (Except.error TickErr.revealMiss) := by
    simp only [processVote]
    rw [if_neg hskip, if_pos ⟨hP, hgap⟩]
  refine ⟨h1, ?_⟩
  unfold voteTick
  rw [h1]

theorem c4_witness :
    processVote ⟨5, ["uusd"], 19, [], 0, fun _ => "7361", Except.ok ("TX"), []⟩
        ["val1"] "voter" ["usd"] ⟨1, []⟩
      = some (Except.error TickErr.revealMiss) ∧
    voteTick ⟨5, ["uusd"], 19, [], 0, fun _ => "7361", Except.ok ("TX"), []⟩
        ["val1"] "voter" ["usd"] ⟨1, []⟩
      = some ⟨0, []⟩ :=
  c4_reveal_miss_resets ⟨5, ["uusd"], 19, [], 0, fun _ => "7361", Except.ok ("TX"), []⟩
    ["val1"] "voter" ["usd"] ⟨1, []⟩ (by decide) (by decide) (by decide) (by decide)

/-- C5: when the previous vote period is non-zero and the current period
equals it, the tick returns at the skip, with no price fetch, no signing,
no broadcast, an empty submitted message list, and the state unchanged. -/
theorem c5_skip_no_effects (env : PVEnv) (valAddrs : List String) (voterAddr : String)
    (denoms : List String) (st : VoteState)
    (hP : st.previousVotePeriod ≠ 0)
    (heq : (env.latestBlockHeight + 1) / env.oracleVotePeriod = st.previousVotePeriod) :
    processVote env valAddrs voterAddr denoms st
      = some (Except.ok ⟨st, false, false, false, [], 0⟩) ∧
    voteTick env valAddrs voterAddr denoms st = some st := by
  have h1 : processVote env valAddrs voterAddr denoms st
      = some (Except.ok ⟨st, false, false, false, [], 0⟩) := by
    simp only [processVote]
    rw [if_pos (Or.inl ⟨hP, heq⟩)]
  refine ⟨h1, ?_⟩
  unfold voteTick
  rw [h1]

theorem c5_witness :
    processVote ⟨5, ["uusd"], 4, [], 0, fun _ => "7361", Except.ok ("TX"), []⟩
        ["val1"] "voter" ["usd"] ⟨1, []⟩
      = some (Except.ok ⟨⟨1, []⟩, false, false, false, [], 0⟩) ∧
    voteTick ⟨5, ["uusd"], 4, [], 0, fun _ => "7361", Except.ok ("TX"), []⟩
        ["val1"] "voter" ["usd"] ⟨1, []⟩
      = some ⟨1, []⟩ :=
  c5_skip_no_effects ⟨5, ["uusd"], 4, [], 0, fun _ => "7361", Except.ok ("TX"), []⟩
    ["val1"] "voter" ["usd"] ⟨1, []⟩ (by decide) (by decide)

/-- C6: when confirmation succeeds (`validateTx` returns a non-zero
height), the tick returns with `previousVotePeriod = height /
oracleVotePeriod` and `previousVoteMsgs` equal to the vote messages built
this tick from the filtered prices. -/
theorem c6_confirmed_updates (env : PVEnv) (valAddrs : List String) (voterAddr : String)
    (denoms : List String) (st : VoteState) (raw : List Price) (tx : String) (height : Nat)
    (hskip : ¬((st.previousVotePeriod ≠ 0 ∧
        (env.latestBlockHeight + 1) / env.oracleVotePeriod = st.previousVotePeriod) ∨
        env.oracleVotePeriod - (env.latestBlockHeight + 1) % env.oracleVotePeriod < 2))
    (hmiss : ¬(st.previousVotePeriod ≠ 0 ∧
        (((env.latestBlockHeight + 1) / env.oracleVotePeriod : Nat) : Int)
          - (st.previousVotePeriod : Int) ≠ 1))
    (hfetch : getPrices env.fetches env.now = Except.ok raw)
    (hbc : env.broadcastResult = Except.ok tx)
    (hval : (validateTx env.polls (env.latestBlockHeight + 1)).1 = some height)
    (hh : height ≠ 0) :
    ∃ r : TickResult,
      processVote env valAddrs voterAddr denoms st = some (Except.ok r) ∧
      r.state = ⟨height / env.oracleVotePeriod,
        buildVoteMsgs (filterPrices raw env.oracleWhitelist denoms)
          valAddrs voterAddr env.salts⟩ := by
  refine ⟨_, processVote_run env valAddrs voterAddr denoms st raw tx height
    hskip hmiss hfetch hbc hval, ?_⟩
  simp [hh]

theorem c6_witness :
    ∃ r : TickResult,
      processVote
          ⟨5, ["uusd"], 19, [FetchOutcome.fulfilled 10 ⟨some (some 0), some [⟨"USD", "1.0"⟩]⟩],
            1000, fun _ => "7361", Except.ok ("TX"), [⟨21, TxLookup.found 0 22⟩]⟩
          ["val1"] "voter" ["usd"] ⟨3, []⟩
        = some (Except.ok r) ∧
      r.state = ⟨22 / 5,
        buildVoteMsgs (filterPrices [⟨"USD", "1.0"⟩] ["uusd"] ["usd"])
          ["val1"] "voter" fun _ => "7361"⟩ :=
  c6_confirmed_updates
    ⟨5, ["uusd"], 19, [FetchOutcome.fulfilled 10 ⟨some (some 0), some [⟨"USD", "1.0"⟩]⟩],
      1000, fun _ => "7361", Except.ok ("TX"), [⟨21, TxLookup.found 0 22⟩]⟩
    ["val1"] "voter" ["usd"] ⟨3, []⟩ [⟨"USD", "1.0"⟩] "TX" 22
    (by decide) (by decide) rfl rfl rfl (by decide)

/-- C7: when confirmation polling exhausts its window (`validateTx`
returns 0), the tick returns without throwing and the state — both
`previousVotePeriod` and `previousVoteMsgs` — retains its prior value. -/
theorem c7_not_found_keeps_state (env : PVEnv) (valAddrs : List String) (voterAddr : String)
    (denoms : List String) (st : VoteState) (raw : List Price) (tx : String)
    (hskip : ¬((st.previousVotePeriod ≠ 0 ∧
        (env.latestBlockHeight + 1) / env.oracleVotePeriod = st.previousVotePeriod) ∨
        env.oracleVotePeriod - (env.latestBlockHeight + 1) % env.oracleVotePeriod < 2))
    (hmiss : ¬(st.previousVotePeriod ≠ 0 ∧
        (((env.latestBlockHeight + 1) / env.oracleVotePeriod : Nat) : Int)
          - (st.previousVotePeriod : Int) ≠ 1))
    (hfetch : getPrices env.fetches env.now = Except.ok raw)
    (hbc : env.broadcastResult = Except.ok tx)
    (hval : (validateTx env.polls (env.latestBlockHeight + 1)).1 = some 0) :
    ∃ r : TickResult,
      processVote env valAddrs voterAddr denoms st = some (Except.ok r) ∧
      r.state = st := by
  refine ⟨_, processVote_run env valAddrs voterAddr denoms st raw tx 0
    hskip hmiss hfetch hbc hval, ?_⟩
  simp

theorem c7_witness :
    ∃ r : TickResult,
      processVote
          ⟨5, ["uusd"], 19, [FetchOutcome.fulfilled 10 ⟨some (some 0), some [⟨"USD", "1.0"⟩]⟩],
            1000, fun _ => "7361", Except.ok ("TX"),
            [⟨21, TxLookup.queryError⟩, ⟨22, TxLookup.queryError⟩]⟩
          ["val1"] "voter" ["usd"] ⟨3, []⟩
        = some (Except.ok r) ∧
      r.state = ⟨3, []⟩ :=
  c7_not_found_keeps_state
    ⟨5, ["uusd"], 19, [FetchOutcome.fulfilled 10 ⟨some (some 0), some [⟨"USD", "1.0"⟩]⟩],
      1000, fun _ => "7361", Except.ok ("TX"),
      [⟨21, TxLookup.queryError⟩, ⟨22, TxLookup.queryError⟩]⟩
    ["val1"] "voter" ["usd"] ⟨3, []⟩ [⟨"USD", "1.0"⟩] "TX"
    (by decide) (by decide) rfl rfl rfl

/-- C8: the submitted transaction's message list is `previousVoteMsgs`
(the previous period's reveals) followed, in order, by the prevotes
derived from this tick's newly built vote messages, and the fee gas is
100000 times the total message count. -/
theorem c8_msgs_and_fee (env : PVEnv) (valAddrs : List String) (voterAddr : String)
    (denoms : List String) (st : VoteState) (raw : List Price) (tx : String) (height : Nat)
    (hskip : ¬((st.previousVotePeriod ≠ 0 ∧
        (env.latestBlockHeight + 1) / env.oracleVotePeriod = st.previousVotePeriod) ∨
        env.oracleVotePeriod - (env.latestBlockHeight + 1) % env.oracleVotePeriod < 2))
    (hmiss : ¬(st.previousVotePeriod ≠ 0 ∧
        (((env.latestBlockHeight + 1) / env.oracleVotePeriod : Nat) : Int)
          - (st.previousVotePeriod : Int) ≠ 1))
    (hfetch : getPrices env.fetches env.now = Except.ok raw)
    (hbc : env.broadcastResult = Except.ok tx)
    (hval : (validateTx env.polls (env.latestBlockHeight + 1)).1 = some height) :
    ∃ r : TickResult,
      processVote env valAddrs voterAddr denoms st = some (Except.ok r) ∧
      r.submittedMsgs = st.previousVoteMsgs.map Msg.vote
        ++ (buildVoteMsgs (filterPrices raw env.oracleWhitelist denoms)
            valAddrs voterAddr env.salts).map Msg.prevote ∧
      r.feeGas = r.submittedMsgs.length * 100000 :=
  ⟨_, processVote_run env valAddrs voterAddr denoms st raw tx height
    hskip hmiss hfetch hbc hval, rfl, rfl⟩

theorem c8_witness :
    ∃ r : TickResult,
      processVote
          ⟨5, ["uusd"], 19, [FetchOutcome.fulfilled 10 ⟨some (some 0), some [⟨"USD", "1.0"⟩]⟩],
            1000, fun _ => "7361", Except.ok ("TX"), [⟨21, TxLookup.found 0 22⟩]⟩
          ["val1"] "voter" ["usd"] ⟨3, [⟨"c", "s", "voter", "val1"⟩]⟩
        = some (Except.ok r) ∧
      r.submittedMsgs = ([⟨"c", "s", "voter", "val1"⟩] : List VoteMsg).map Msg.vote
        ++ (buildVoteMsgs (filterPrices [⟨"USD", "1.0"⟩] ["uusd"] ["usd"])
            ["val1"] "voter" fun _ => "7361").map Msg.prevote ∧
      r.feeGas = r.submittedMsgs.length * 100000 :=
  c8_msgs_and_fee
    ⟨5, ["uusd"], 19, [FetchOutcome.fulfilled 10 ⟨some (some 0), some [⟨"USD", "1.0"⟩]⟩],
      1000, fun _ => "7361", Except.ok ("TX"), [⟨21, TxLookup.found 0 22⟩]⟩
    ["val1"] "voter" ["usd"] ⟨3, [⟨"c", "s", "voter", "val1"⟩]⟩ [⟨"USD", "1.0"⟩] "TX" 22
    (by decide) (by decide) rfl rfl rfl

theorem processVote_ok_cases (env : PVEnv) (valAddrs : List String) (voterAddr : String)
    (denoms : List String) (st : VoteState) (r : TickResult)
    (h : processVote env valAddrs voterAddr denoms st = some (Except.ok r)) :
    r.state = st ∨
    ∃ height raw, height ≠ 0 ∧
      (validateTx env.polls (env.latestBlockHeight + 1)).1 = some height ∧
      getPrices env.fetches env.now = Except.ok raw ∧
      r.state = ⟨height / env.oracleVotePeriod,
        buildVoteMsgs (filterPrices raw env.oracleWhitelist denoms)
          valAddrs voterAddr env.salts⟩ := by
  simp only [processVote] at h
  split at h
  · left
    obtain rfl : (⟨st, false, false, false, [], 0⟩ : TickResult) = r := by
      simpa using h
    rfl
  · split at h
    · exact absurd h (by simp)
    · split at h
      next e heq => exact absurd h (by simp)
      next raw heq =>
        split at h
        next e2 hbc => exact absurd h (by simp)
        next tx hbc =>
          split at h
          next hval => exact absurd h (by simp)
          next height hval =>
            split at h
            · left
              obtain rfl : (⟨st, true, true, true, _, _⟩ : TickResult) = r := by
                simpa using h
              rfl
            · rename_i h0
              right
              refine ⟨height, raw, h0, hval, heq, ?_⟩
              obtain rfl :
                  (⟨⟨height / env.oracleVotePeriod,
                    buildVoteMsgs (filterPrices raw env.oracleWhitelist denoms)
                      valAddrs voterAddr env.salts⟩, true, true, true, _, _⟩ : TickResult) = r := by
                simpa using h
              rfl

/-- C10: across a tick of the vote loop, `previousVotePeriod` and
`previousVoteMsgs` change together or not at all: the resulting state is
the old state (skip, or confirmation timeout), the full reset `⟨0, []⟩`
(any thrown error), or sets both fields (confirmed period and the newly
built vote messages). -/
theorem c10_state_coupling (env : PVEnv) (valAddrs : List String) (voterAddr : String)
    (denoms : List String) (st st2 : VoteState)
    (h : voteTick env valAddrs voterAddr denoms st = some st2) :
    st2 = st ∨ st2 = ⟨0, []⟩ ∨
    ∃ height raw, height ≠ 0 ∧
      (validateTx env.polls (env.latestBlockHeight + 1)).1 = some height ∧
      getPrices env.fetches env.now = Except.ok raw ∧
      st2 = ⟨height / env.oracleVotePeriod,
        buildVoteMsgs (filterPrices raw env.oracleWhitelist denoms)
          valAddrs voterAddr env.salts⟩ := by
  unfold voteTick at h
  cases hpv : processVote env valAddrs voterAddr denoms st with
  | none => rw [hpv] at h; cases h
  | some x =>
    rw [hpv] at h
    cases x with
    | error e =>
      right; left
      have : some (⟨0, []⟩ : VoteState) = some st2 := h
      injection this with h2
      exact h2.symm
    | ok r =>
      have hst2 : st2 = r.state := by
        have : some r.state = some st2 := h
        injection this with h2
        exact h2.symm
      rcases processVote_ok_cases env valAddrs voterAddr denoms st r hpv with
        hkeep | ⟨height, raw, h0, hval, hfe, hset⟩
      · left; rw [hst2, hkeep]
      · right; right
        exact ⟨height, raw, h0, hval, hfe, by rw [hst2, hset]⟩

theorem c10_witness :
    (⟨1, []⟩ : VoteState) = ⟨1, []⟩ ∨ (⟨1, []⟩ : VoteState) = ⟨0, []⟩ ∨
    ∃ height raw, height ≠ 0 ∧
      (validateTx ([] : List Poll) (4 + 1)).1 = some height ∧
      getPrices ([] : List FetchOutcome) 0 = Except.ok raw ∧
      (⟨1, []⟩ : VoteState) = ⟨height / 5,
        buildVoteMsgs (filterPrices raw ["uusd"] ["usd"]) ["val1"] "voter" fun _ => "7361"⟩ :=
  c10_state_coupling ⟨5, ["uusd"], 4, [], 0, fun _ => "7361", Except.ok ("TX"), []⟩
    ["val1"] "voter" ["usd"] ⟨1, []⟩ ⟨1, []⟩ rfl

/-! ## Confirmation-polling lemmas (C9) -/

theorem validateTxGo_queries_le (maxH : Nat) :
    ∀ (polls : List Poll) (lc h q : Nat),
      (validateTxGo maxH polls lc h q).2 ≤ q + (maxH - lc) := by
  intro polls
  induction polls with
  | nil =>
    intro lc h q
    simp only [validateTxGo]
    split
    · exact Nat.le_add_right q _
    · exact Nat.le_add_right q _
  | cons p rest ih =>
    intro lc h q
    simp only [validateTxGo]
    split
    · exact Nat.le_add_right q _
    · rename_i hcond
      split
      · exact ih lc h q
      · rename_i hadv
        refine le_trans (ih p.blockHeight _ (q + 1)) ?_
        omega

theorem validateTxGo_exit (maxH : Nat) (polls : List Poll) (lc h q : Nat)
    (hexit : maxH ≤ lc) : (validateTxGo maxH polls lc h q).1 = some h := by
  cases polls with
  | nil =>
    simp only [validateTxGo]
    rw [if_pos (Or.inr hexit)]
  | cons p rest =>
    simp only [validateTxGo]
    rw [if_pos (Or.inr hexit)]

theorem validateTxGo_some (maxH : Nat) :
    ∀ (polls : List Poll) (lc h q : Nat),
      (∃ p ∈ polls, maxH ≤ p.blockHeight) →
      ∃ r, (validateTxGo maxH polls lc h q).1 = some r := by
  intro polls
  induction polls with
  | nil =>
    intro lc h q hex
    simp at hex
  | cons p rest ih =>
    intro lc h q hex
    simp only [validateTxGo]
    split
    · exact ⟨h, rfl⟩
    · rename_i hcond
      split
      · rename_i hskip
        rcases hex with ⟨p2, hp2, hmax⟩
        rcases List.mem_cons.mp hp2 with rfl | hmem
        · exact absurd (Or.inr (le_trans hmax hskip)) hcond
        · exact ih lc h q ⟨p2, hmem, hmax⟩
      · rcases hex with ⟨p2, hp2, hmax⟩
        rcases List.mem_cons.mp hp2 with rfl | hmem
        · exact ⟨_, validateTxGo_exit maxH rest p2.blockHeight _ (q + 1) hmax⟩
        · exact ih p.blockHeight _ (q + 1) ⟨p2, hmem, hmax⟩

theorem validateTxGo_zero (maxH : Nat) :
    ∀ (polls : List Poll) (lc q : Nat),
      (∀ p ∈ polls, ∀ hh, p.txResult = TxLookup.found 0 hh → hh = 0) →
      ∀ r, (validateTxGo maxH polls lc 0 q).1 = some r → r = 0 := by
  intro polls
  induction polls with
  | nil =>
    intro lc q hnc r hr
    simp only [validateTxGo] at hr
    split at hr
    · injection hr with h2
      exact h2.symm
    · cases hr
  | cons p rest ih =>
    intro lc q hnc r hr
    simp only [validateTxGo] at hr
    split at hr
    · injection hr with h2
      exact h2.symm
    · split at hr
      · exact ih lc q (fun p2 hp2 => hnc p2 (List.mem_cons_of_mem _ hp2)) r hr
      · have hz : (match p.txResult with
            | TxLookup.found 0 hh => hh
            | _ => 0) = 0 := by
          cases htx : p.txResult with
          | found code hh =>
            cases code with
            | zero => exact hnc p (List.mem_cons_self p rest) hh htx
            | succ n => rfl
          | queryError => rfl
        rw [hz] at hr
        exact ih p.blockHeight (q + 1) (fun p2 hp2 => hnc p2 (List.mem_cons_of_mem _ hp2)) r hr

/-- C9: confirmation polling starts its check height at `nextBlockHeight
- 1`, performs at most 3 tx-by-hash queries (one per newly observed
block height), and — provided some poll observes a chain height past
`nextBlockHeight + 1` — terminates, returning 0 when no lookup confirmed
the transaction within the window. -/
theorem c9_validateTx_window (polls : List Poll) (nextBlockHeight : Nat)
    (hreach : ∃ p ∈ polls, nextBlockHeight + 2 ≤ p.blockHeight) :
    (validateTx polls nextBlockHeight).2 ≤ 3 ∧
    (∃ r, (validateTx polls nextBlockHeight).1 = some r) ∧
    ((∀ p ∈ polls, ∀ hh, p.txResult = TxLookup.found 0 hh → hh = 0) →
      (validateTx polls nextBlockHeight).1 = some 0) := by
  refine ⟨?_, ?_, ?_⟩
  · have h1 := validateTxGo_queries_le (nextBlockHeight + 2) polls (nextBlockHeight - 1) 0 0
    unfold validateTx
    omega
  · exact validateTxGo_some (nextBlockHeight + 2) polls (nextBlockHeight - 1) 0 0 hreach
  · intro hnc
    rcases validateTxGo_some (nextBlockHeight + 2) polls (nextBlockHeight - 1) 0 0 hreach with
      ⟨r, hr⟩
    have hr0 := validateTxGo_zero (nextBlockHeight + 2) polls (nextBlockHeight - 1) 0 hnc r hr
    rw [hr0] at hr
    exact hr

theorem c9_witness :
    (validateTx [⟨12, TxLookup.queryError⟩] 10).2 ≤ 3 ∧
    (∃ r, (validateTx [⟨12, TxLookup.queryError⟩] 10).1 = some r) ∧
    ((∀ p ∈ [(⟨12, TxLookup.queryError⟩ : Poll)], ∀ hh,
        p.txResult = TxLookup.found 0 hh → hh = 0) →
      (validateTx [⟨12, TxLookup.queryError⟩] 10).1 = some 0) :=
  c9_validateTx_window [⟨12, TxLookup.queryError⟩] 10 (by decide)

end OracleFeeder
